import Mathlib

/-!
Shallow embedding of the apache/synapse-go mediation runtime, verified
against the claims of its natural-language specification.

The Go source is embedded as executable Lean definitions:
  * message contexts, mediators, sequences and resources
    (internal/pkg/core/artifacts, internal/pkg/core/synctx);
  * the HTTP router's resource handler and query-parameter middleware
    (internal/pkg/core/router/service.go);
  * the URI-template parser and the two mediator-dispatch loops of the
    XML deployers (internal/pkg/core/deployers/types);
  * base-path computation (artifacts API / router RegisterAPI);
  * the configuration registry (internal/pkg/core/artifacts/artifact.go);
  * CORS origin matching (artifacts CORS config);
  * the file-inbound advisory lock protocol (tryLockFile);
  * the mediation engine port (adapters/mediation).

Go strings are modelled by Lean `String`; byte-level operations of the
source (indexing, slicing, `len`) coincide with the character-level
model on the ASCII data these operations are applied to.  Go maps are
modelled by association lists with replace-on-insert semantics.
-/

/-! ## Association-list model of Go maps -/

/-- Lookup in an association list: the model of reading a Go map. -/
def lookupA {α : Type} (l : List (String × α)) (k : String) : Option α :=
  match l with
  | [] => none
  | (k', v) :: rest => if k' = k then some v else lookupA rest k

/-- Insert into an association list, replacing any existing binding:
the model of Go map assignment `m[k] = v`. -/
def insertA {α : Type} (l : List (String × α)) (k : String) (v : α) :
    List (String × α) :=
  match l with
  | [] => [(k, v)]
  | (k', v') :: rest =>
      if k' = k then (k, v) :: rest else (k', v') :: insertA rest k v

theorem lookupA_insertA_self {α : Type} (l : List (String × α)) (k : String)
    (v : α) : lookupA (insertA l k v) k = some v := by
  induction l with
  | nil => simp [insertA, lookupA]
  | cons p rest ih =>
      obtain ⟨k', v'⟩ := p
      by_cases h : k' = k
      · simp [insertA, h, lookupA]
      · simp [insertA, h, lookupA, ih]

theorem lookupA_insertA_other {α : Type} (l : List (String × α))
    (k n : String) (v : α) (hne : n ≠ k) :
    lookupA (insertA l k v) n = lookupA l n := by
  have hkn : ¬ k = n := fun h => hne h.symm
  induction l with
  | nil => simp [insertA, lookupA, hkn]
  | cons p rest ih =>
      obtain ⟨k', v'⟩ := p
      by_cases h : k' = k
      · subst h
        simp [insertA, lookupA, hkn]
      · by_cases h2 : k' = n
        · subst h2
          simp [insertA, lookupA, hne]
        · simp [insertA, h, lookupA, h2, ih]

/-- Keys of an association list. -/
def keysA {α : Type} (l : List (String × α)) : List String :=
  l.map Prod.fst

theorem keysA_cons {α : Type} (a : String) (b : α) (l : List (String × α)) :
    keysA ((a, b) :: l) = a :: keysA l := rfl

theorem keysA_insertA {α : Type} (l : List (String × α)) (k : String)
    (v : α) :
    keysA (insertA l k v) =
      if k ∈ keysA l then keysA l else keysA l ++ [k] := by
  induction l with
  | nil => simp [insertA, keysA]
  | cons p rest ih =>
      obtain ⟨k', v'⟩ := p
      by_cases h : k' = k
      · subst h
        simp [insertA, keysA]
      · have h' : ¬ k = k' := fun hh => h hh.symm
        by_cases hm : k ∈ keysA rest
        · simp [insertA, h, keysA_cons, ih, hm, h', List.mem_cons]
        · simp [insertA, h, keysA_cons, ih, hm, h', List.mem_cons]

theorem nodup_keysA_insertA {α : Type} (l : List (String × α)) (k : String)
    (v : α) (h : (keysA l).Nodup) : (keysA (insertA l k v)).Nodup := by
  rw [keysA_insertA]
  by_cases hm : k ∈ keysA l
  · simpa [hm] using h
  · simp only [hm, if_false]
    simpa [List.nodup_append] using ⟨h, fun hk => hm hk⟩

/-! ## Message context (package synctx)

Modelled from the spec: the `synctx` package itself is not under the
source tree (only its callers are).  Per §3 of the spec a message
context is `{raw_payload: bytes, content_type: string,
headers: map<string,string>, properties: map<string,any>}` and a fresh
context carries empty maps and no payload. -/

/-- A property value stored in the untyped `properties` map.  The claims
only exercise the string-map shape (`uriParams`, `queryParams`). -/
inductive PropValue where
  | strMap (m : List (String × String))
deriving Repr, DecidableEq

/-- Modelled from the spec: the payload slot of a message
(`raw_payload` bytes plus `content_type`); bytes are modelled as a
string, `none` standing for Go's nil slice. -/
structure Message where
  rawPayload : Option String
  contentType : String
deriving Repr, DecidableEq

/-- Modelled from the spec: the mutable per-message carrier threaded
through a mediator chain. -/
structure MsgContext where
  message : Message
  headers : List (String × String)
  properties : List (String × PropValue)
deriving Repr, DecidableEq

/-- Modelled from the spec: `synctx.CreateMsgContext` — a fresh context
with empty headers and properties and no payload. -/
def createMsgContext : MsgContext :=
  { message := { rawPayload := none, contentType := "" },
    headers := [], properties := [] }

/-! ## Mediators and sequences (artifacts package) -/

/-- The Go `Mediator` interface: a single execution method
`Execute(context) (bool, error)` that may mutate the context.  Mutation
is modelled by returning the updated context. -/
def Mediator : Type := MsgContext → Bool × Option String × MsgContext

/-- `artifacts.Sequence` (a `BaseSequence`): an ordered mediator list. -/
structure Sequence where
  mediatorList : List Mediator

/-- `BaseSequence.Execute`: run mediators in declaration order; if a
mediator's continue flag is false, stop and report failure; an error
value is only logged and does not stop the chain. -/
def executeMediators : List Mediator → MsgContext → Bool × MsgContext
  | [], c => (true, c)
  | m :: ms, c =>
      match m c with
      | (result, _err, c') =>
          if result then executeMediators ms c' else (false, c')

/-- `Sequence.Execute` on the wrapped mediator list. -/
def Sequence.execute (s : Sequence) (c : MsgContext) : Bool × MsgContext :=
  executeMediators s.mediatorList c

/-- `artifacts.URITemplateInfo`. -/
structure URITemplateInfo where
  fullTemplate : String
  pathTemplate : String
  pathParameters : List String
  queryParameters : List (String × String)
deriving Repr, DecidableEq

/-- `artifacts.Resource`. -/
structure Resource where
  methods : List String
  uriTemplate : URITemplateInfo
  inSequence : Sequence
  faultSequence : Sequence

/-- `Resource.Mediate`: run the in-sequence; on failure run the
fault-sequence; fail only when both fail.  The final context is the one
left by the last sequence that ran. -/
def Resource.mediate (r : Resource) (c : MsgContext) : Bool × MsgContext :=
  match r.inSequence.execute c with
  | (true, c1) => (true, c1)
  | (false, c1) =>
      match r.faultSequence.execute c1 with
      | (fOk, c2) => (fOk, c2)

/-- `artifacts.RespondMediator.Execute`: set the `http-response` header
flag and continue. -/
def respondMediator : Mediator := fun c =>
  (true, none, { c with headers := insertA c.headers "http-response" "true" })

/-- The trace predicate "running the mediators in declaration order,
every mediator returned continue_flag = true" (the success criterion
the spec states for a sequence). -/
inductive RunAllTrue : List Mediator → MsgContext → Prop
  | nil (c : MsgContext) : RunAllTrue [] c
  | cons {m : Mediator} {ms : List Mediator} {c : MsgContext}
      (h : (m c).1 = true) (hrest : RunAllTrue ms (m c).2.2) :
      RunAllTrue (m :: ms) c

theorem executeMediators_append (xs ys : List Mediator) (c : MsgContext) :
    executeMediators (xs ++ ys) c =
      match executeMediators xs c with
      | (true, c') => executeMediators ys c'
      | (false, c') => (false, c') := by
  induction xs generalizing c with
  | nil => simp [executeMediators]
  | cons m ms ih =>
      simp only [List.cons_append, executeMediators]
      match hm : m c with
      | (result, e, c') =>
          by_cases hr : result = true
          · simp [hr, ih]
          · simp at hr
            simp [hr]

theorem executeMediators_true_iff (ms : List Mediator) (c : MsgContext) :
    (executeMediators ms c).1 = true ↔ RunAllTrue ms c := by
  induction ms generalizing c with
  | nil => simp [executeMediators]; exact RunAllTrue.nil c
  | cons m ms ih =>
      constructor
      · intro h
        simp only [executeMediators] at h
        match hm : m c with
        | (result, e, c') =>
            rw [hm] at h
            by_cases hr : result = true
            · rw [hr] at h
              simp only [if_true] at h
              refine RunAllTrue.cons ?_ ?_
              · rw [hm, hr]
              · rw [hm]
                exact (ih c').mp h
            · simp at hr
              rw [hr] at h
              simp [executeMediators] at h
      · intro h
        cases h with
        | cons h1 hrest =>
            simp only [executeMediators]
            match hm : m c with
            | (result, e, c') =>
                rw [hm] at h1 hrest
                simp only at h1 hrest
                rw [h1]
                simp only [if_true]
                exact (ih c').mpr hrest

theorem executeMediators_stop (pre : List Mediator) (m : Mediator)
    (post post' : List Mediator) (c : MsgContext)
    (hpre : (executeMediators pre c).1 = true)
    (hm : (m (executeMediators pre c).2).1 = false) :
    executeMediators (pre ++ m :: post) c =
      executeMediators (pre ++ m :: post') c ∧
    (executeMediators (pre ++ m :: post) c).1 = false := by
  have hsplit : ∀ q : List Mediator,
      executeMediators (pre ++ m :: q) c =
        (false, (m (executeMediators pre c).2).2.2) := by
    intro q
    rw [executeMediators_append]
    match hx : executeMediators pre c with
    | (b, c1) =>
        rw [hx] at hpre hm
        simp only at hpre hm
        rw [hpre]
        simp only [executeMediators]
        match hy : m c1 with
        | (result, e, c2) =>
            rw [hy] at hm
            simp only at hm
            rw [hm]
            simp
  rw [hsplit post, hsplit post']
  exact ⟨rfl, rfl⟩

/-- Claim C2: a sequence runs its mediators in declaration order and
succeeds iff every mediator returned a true continue flag; execution
stops at the first mediator whose continue flag is false (the rest of
the list is irrelevant); mediating a resource runs the in-sequence,
runs the fault-sequence only on its failure, and succeeds iff at least
one of the two sequences completed. -/
theorem sequence_success_iff_all_continue_and_resource_mediate :
    (∀ (ms : List Mediator) (c : MsgContext),
        (executeMediators ms c).1 = true ↔ RunAllTrue ms c) ∧
    (∀ (pre : List Mediator) (m : Mediator) (post post' : List Mediator)
        (c : MsgContext),
        (executeMediators pre c).1 = true →
        (m (executeMediators pre c).2).1 = false →
        executeMediators (pre ++ m :: post) c =
          executeMediators (pre ++ m :: post') c ∧
        (executeMediators (pre ++ m :: post) c).1 = false) ∧
    (∀ (r : Resource) (c : MsgContext),
        (r.mediate c).1 =
          ((r.inSequence.execute c).1 ||
            (r.faultSequence.execute (r.inSequence.execute c).2).1)) := by
  refine ⟨executeMediators_true_iff, executeMediators_stop, ?_⟩
  intro r c
  unfold Resource.mediate
  match hx : r.inSequence.execute c with
  | (true, c1) => simp
  | (false, c1) =>
      match hy : r.faultSequence.execute c1 with
      | (fOk, c2) => simp [hy]

/-- A mediator that continues and leaves the context unchanged. -/
def mContinue : Mediator := fun c => (true, none, c)

/-- A mediator that stops the chain and leaves the context unchanged. -/
def mStop : Mediator := fun c => (false, none, c)

/-- Witness for C2: at a concrete three-mediator chain whose middle
mediator returns a false continue flag, the chain fails. -/
theorem sequence_success_iff_all_continue_witness :
    (executeMediators ([mContinue] ++ mStop :: [mContinue])
      createMsgContext).1 = false :=
  ((sequence_success_iff_all_continue_and_resource_mediate.2.1
      [mContinue] mStop [mContinue] [] createMsgContext rfl rfl).2)

/-! ## HTTP router: resource handler and query-parameter middleware
(internal/pkg/core/router/service.go) -/

/-- An incoming HTTP request as the resource handler sees it: the fully
read body, the Content-Type header, the parsed query key/value pairs
(`r.URL.Query()`, first value per key) and the matched path values
(`r.PathValue`). -/
structure HttpRequest where
  body : String
  contentType : String
  query : List (String × String)
  pathValues : String → String

/-- The response the handler writes: status code, response headers and
body. -/
structure HttpResponse where
  status : Nat
  headers : List (String × String)
  body : String
deriving Repr, DecidableEq

/-- The query-variable map built by `createResourceHandler`: each
declared query parameter that is present in the request is mapped
variable-name to first request value. -/
def buildQueryVarMap (declared : List (String × String))
    (query : List (String × String)) : List (String × String) :=
  declared.foldl (fun acc pv =>
    match lookupA query pv.1 with
    | some v => insertA acc pv.2 v
    | none => acc) []

/-- The message context `createResourceHandler` assembles before
mediation: fresh context, request body as payload, request
Content-Type, `uriParams` always set, `queryParams` set only when the
resource declares query parameters. -/
def setupContext (r : Resource) (req : HttpRequest) : MsgContext :=
  let c0 := createMsgContext
  let msg : Message :=
    { rawPayload := some req.body, contentType := req.contentType }
  let c1 : MsgContext := { c0 with message := msg }
  let pathParamsMap :=
    r.uriTemplate.pathParameters.map (fun p => (p, req.pathValues p))
  let props2 :=
    insertA c1.properties "uriParams" (PropValue.strMap pathParamsMap)
  let c2 : MsgContext := { c1 with properties := props2 }
  if r.uriTemplate.queryParameters.length > 0 then
    let qmap := buildQueryVarMap r.uriTemplate.queryParameters req.query
    let props3 := insertA c2.properties "queryParams" (PropValue.strMap qmap)
    { c2 with properties := props3 }
  else c2

/-- `RouterService.createResourceHandler`: mediate the resource; on
success copy the context headers to the response and write the payload
(status 200); on failure reply 500 via `http.Error`. -/
def createResourceHandler (r : Resource) (req : HttpRequest) :
    HttpResponse :=
  if (r.mediate (setupContext r req)).1 then
    { status := 200, headers := (r.mediate (setupContext r req)).2.headers,
      body := (r.mediate (setupContext r req)).2.message.rawPayload.getD "" }
  else
    { status := 500,
      headers := [("Content-Type", "text/plain; charset=utf-8")],
      body := "Internal server error\n" }

/-- Claim C1 (amended): when resource mediation succeeds the handler
copies the final context headers to the response and writes the current
payload with status 200 — whether or not the respond mediator executed;
it never replies 202; when mediation fails (in-sequence and
fault-sequence both fail) it replies 500. -/
theorem resource_handler_response (r : Resource) (req : HttpRequest) :
    ((r.mediate (setupContext r req)).1 = true →
      createResourceHandler r req =
        { status := 200,
          headers := (r.mediate (setupContext r req)).2.headers,
          body :=
            (r.mediate (setupContext r req)).2.message.rawPayload.getD "" } ∧
      (createResourceHandler r req).status ≠ 202) ∧
    ((r.mediate (setupContext r req)).1 = false →
      (createResourceHandler r req).status = 500) := by
  unfold createResourceHandler
  constructor
  · intro h
    rw [h]
    simp
  · intro h
    rw [h]
    simp

/-- Witness for C1: a resource whose in-sequence is a single respond
mediator answers a concrete request with status 200 and the
request-body payload. -/
theorem resource_handler_response_witness :
    createResourceHandler
        { methods := ["GET"],
          uriTemplate := { fullTemplate := "/h", pathTemplate := "/h",
                           pathParameters := [], queryParameters := [] },
          inSequence := ⟨[respondMediator]⟩, faultSequence := ⟨[]⟩ }
        { body := "hello", contentType := "text/plain", query := [],
          pathValues := fun _ => "" } =
      { status := 200, headers := [("http-response", "true")],
        body := "hello" } :=
  ((resource_handler_response
      { methods := ["GET"],
        uriTemplate := { fullTemplate := "/h", pathTemplate := "/h",
                         pathParameters := [], queryParameters := [] },
        inSequence := ⟨[respondMediator]⟩, faultSequence := ⟨[]⟩ }
      { body := "hello", contentType := "text/plain", query := [],
        pathValues := fun _ => "" }).1 rfl).1

/-- Counterexample to C1 as stated: a resource with an empty in-sequence
mediates successfully and the respond flag is absent, yet the handler
answers 200 and echoes the request body — not `202 Accepted` with no
body as the claim requires. -/
theorem resource_handler_202_counterexample :
    (({ methods := ["GET"],
        uriTemplate := { fullTemplate := "/h", pathTemplate := "/h",
                         pathParameters := [], queryParameters := [] },
        inSequence := ⟨[]⟩, faultSequence := ⟨[]⟩ } : Resource).mediate
      (setupContext
        { methods := ["GET"],
          uriTemplate := { fullTemplate := "/h", pathTemplate := "/h",
                           pathParameters := [], queryParameters := [] },
          inSequence := ⟨[]⟩, faultSequence := ⟨[]⟩ }
        { body := "hello", contentType := "text/plain", query := [],
          pathValues := fun _ => "" })).1 = true ∧
    lookupA
      (({ methods := ["GET"],
          uriTemplate := { fullTemplate := "/h", pathTemplate := "/h",
                           pathParameters := [], queryParameters := [] },
          inSequence := ⟨[]⟩, faultSequence := ⟨[]⟩ } : Resource).mediate
        (setupContext
          { methods := ["GET"],
            uriTemplate := { fullTemplate := "/h", pathTemplate := "/h",
                             pathParameters := [], queryParameters := [] },
            inSequence := ⟨[]⟩, faultSequence := ⟨[]⟩ }
          { body := "hello", contentType := "text/plain", query := [],
            pathValues := fun _ => "" })).2.headers "http-response" =
      none ∧
    createResourceHandler
        { methods := ["GET"],
          uriTemplate := { fullTemplate := "/h", pathTemplate := "/h",
                           pathParameters := [], queryParameters := [] },
          inSequence := ⟨[]⟩, faultSequence := ⟨[]⟩ }
        { body := "hello", contentType := "text/plain", query := [],
          pathValues := fun _ => "" } =
      { status := 200, headers := [], body := "hello" } ∧
    (200 : Nat) ≠ 202 := by
  refine ⟨rfl, rfl, rfl, by decide⟩

/-- The outcome of the query-parameter middleware: either a
`400 Bad Request` with a diagnostic body, or the request is forwarded
to the resource handler. -/
inductive MWResult where
  | badRequest (body : String)
  | forwarded
deriving Repr, DecidableEq

/-- `RouterService.createQueryParamMiddleware`: with no declared query
parameters forward unconditionally; otherwise reject any request key
not declared in the template, then any declared key missing from the
request; forward only when the keys match exactly. -/
def createQueryParamMiddleware (declared : List (String × String))
    (reqKeys : List String) : MWResult :=
  if declared.length = 0 then .forwarded
  else
    match reqKeys.find? (fun k => (lookupA declared k).isNone) with
    | some k => .badRequest ("Unsupported query parameter: " ++ k)
    | none =>
        match (keysA declared).find? (fun k => !(reqKeys.contains k)) with
        | some k => .badRequest ("Missing required query parameter: " ++ k)
        | none => .forwarded

/-- Claim C3: with declared query variables, any undeclared request key
is rejected `400 Unsupported query parameter: <name>`, any missing
declared key is rejected `400 Missing required query parameter:
<name>`, and a request is forwarded exactly when its query keys cover
the declared set exactly; with no declared query variables every query
string is accepted. -/
theorem query_param_middleware_spec :
    (∀ reqKeys : List String,
      createQueryParamMiddleware [] reqKeys = MWResult.forwarded) ∧
    (∀ (declared : List (String × String)) (reqKeys : List String),
      declared ≠ [] →
      (createQueryParamMiddleware declared reqKeys = MWResult.forwarded ↔
        ((∀ k ∈ reqKeys, (lookupA declared k).isSome) ∧
         (∀ k ∈ keysA declared, k ∈ reqKeys)))) ∧
    (∀ (declared : List (String × String)) (reqKeys : List String),
      declared ≠ [] →
      (∃ k ∈ reqKeys, (lookupA declared k).isNone) →
      ∃ k, k ∈ reqKeys ∧ (lookupA declared k).isNone ∧
        createQueryParamMiddleware declared reqKeys =
          MWResult.badRequest ("Unsupported query parameter: " ++ k)) ∧
    (∀ (declared : List (String × String)) (reqKeys : List String),
      declared ≠ [] →
      (∀ k ∈ reqKeys, (lookupA declared k).isSome) →
      (∃ k ∈ keysA declared, k ∉ reqKeys) →
      ∃ k, k ∈ keysA declared ∧ k ∉ reqKeys ∧
        createQueryParamMiddleware declared reqKeys =
          MWResult.badRequest ("Missing required query parameter: " ++ k)) := by
  have hforward : ∀ reqKeys : List String,
      createQueryParamMiddleware [] reqKeys = MWResult.forwarded := by
    intro reqKeys
    simp [createQueryParamMiddleware]
  have hlen : ∀ declared : List (String × String), declared ≠ [] →
      ¬ declared.length = 0 := by
    intro declared h hc
    exact h (List.length_eq_zero.mp hc)
  refine ⟨hforward, ?_, ?_, ?_⟩
  · intro declared reqKeys hne
    unfold createQueryParamMiddleware
    rw [if_neg (hlen declared hne)]
    match hf : reqKeys.find? (fun k => (lookupA declared k).isNone) with
    | some k =>
        have hk1 : (lookupA declared k).isNone = true := by
          simpa using List.find?_some hf
        have hk2 : k ∈ reqKeys := List.mem_of_find?_eq_some hf
        constructor
        · intro h
          cases h
        · intro h
          have := h.1 k hk2
          rw [Option.isNone_iff_eq_none] at hk1
          rw [hk1] at this
          cases this
    | none =>
        match hg : (keysA declared).find? (fun k => !(reqKeys.contains k)) with
        | some k =>
            have hk1 : (!(reqKeys.contains k)) = true := by
              simpa using List.find?_some hg
            have hk2 : k ∈ keysA declared := List.mem_of_find?_eq_some hg
            constructor
            · intro h
              cases h
            · intro h
              have := h.2 k hk2
              simp only [Bool.not_eq_true'] at hk1
              rw [List.contains] at hk1
              have helem := List.elem_iff.mpr this
              simp [helem] at hk1
              exact absurd this hk1
        | none =>
            constructor
            · intro _
              constructor
              · intro k hk
                have := List.find?_eq_none.mp hf k hk
                simpa [Option.isNone_iff_eq_none, Option.isSome_iff_ne_none]
                  using this
              · intro k hk
                have := List.find?_eq_none.mp hg k hk
                simp only [Bool.not_eq_true, Bool.not_eq_true'] at this
                rw [List.contains] at this
                exact List.elem_iff.mp (by simpa using this)
            · intro _
              rfl
  · intro declared reqKeys hne hex
    unfold createQueryParamMiddleware
    rw [if_neg (hlen declared hne)]
    match hf : reqKeys.find? (fun k => (lookupA declared k).isNone) with
    | some k =>
        exact ⟨k, List.mem_of_find?_eq_some hf,
          by simpa using List.find?_some hf, rfl⟩
    | none =>
        obtain ⟨k, hk, hnone⟩ := hex
        have := List.find?_eq_none.mp hf k hk
        simp [hnone] at this
  · intro declared reqKeys hne hall hex
    unfold createQueryParamMiddleware
    rw [if_neg (hlen declared hne)]
    have hf : reqKeys.find? (fun k => (lookupA declared k).isNone) = none := by
      rw [List.find?_eq_none]
      intro k hk
      have := hall k hk
      simp [Option.isNone_iff_eq_none, Option.isSome_iff_ne_none] at this ⊢
      exact this
    rw [hf]
    match hg : (keysA declared).find? (fun k => !(reqKeys.contains k)) with
    | some k =>
        have hk1 : (!(reqKeys.contains k)) = true := by
          simpa using List.find?_some hg
        have hk2 : k ∈ keysA declared := List.mem_of_find?_eq_some hg
        refine ⟨k, hk2, ?_, rfl⟩
        simp only [Bool.not_eq_true'] at hk1
        intro hmem
        rw [List.contains] at hk1
        have helem := List.elem_iff.mpr hmem
        simp [helem] at hk1
        exact hk1 hmem
    | none =>
        obtain ⟨k, hk, hnotin⟩ := hex
        have := List.find?_eq_none.mp hg k hk
        simp only [Bool.not_eq_true, Bool.not_eq_true'] at this
        rw [List.contains] at this
        exact (hnotin (List.elem_iff.mp (by simpa using this))).elim

/-- Witness for C3: a resource declaring `q={v}` rejects a request
carrying the undeclared key `foo`. -/
theorem query_param_middleware_spec_witness :
    ∃ k, k ∈ ["foo"] ∧ (lookupA [("q", "v")] k).isNone ∧
      createQueryParamMiddleware [("q", "v")] ["foo"] =
        MWResult.badRequest ("Unsupported query parameter: " ++ k) :=
  query_param_middleware_spec.2.2.1 [("q", "v")] ["foo"] (by decide)
    ⟨"foo", by decide, by decide⟩

/-! ## URI-template parsing
(internal/pkg/core/deployers/types/api.go, parseURITemplate) -/

/-- Go `strings.SplitN(s, sep, 2)` for a one-character separator: the
part before the first occurrence, and the remainder when the separator
occurs. -/
def splitFirst (sep : Char) : List Char → List Char × Option (List Char)
  | [] => ([], none)
  | c :: rest =>
      if c = sep then ([], some rest)
      else
        let r := splitFirst sep rest
        (c :: r.1, r.2)

/-- Go `strings.Split(s, sep)` for a one-character separator. -/
def splitChar (sep : Char) : List Char → List (List Char)
  | [] => [[]]
  | c :: rest =>
      if c = sep then [] :: splitChar sep rest
      else
        match splitChar sep rest with
        | [] => [[c]]
        | seg :: segs => (c :: seg) :: segs

/-- The capture of the leftmost match of the Go regular expression
`\{([^}]+)\}` (`pathParamRegex.FindStringSubmatch`): at each `{`, the
greedy run of non-`}` characters must be non-empty and be terminated by
a `}`; otherwise the scan continues. -/
def findParamNameAux : List Char → Option (List Char)
  | [] => none
  | c :: rest =>
      if c = '{' then
        let cap := rest.takeWhile (fun d => !(d = '}'))
        if 0 < cap.length ∧ cap.length < rest.length then some cap
        else findParamNameAux rest
      else findParamNameAux rest

/-- String-level wrapper for the regex capture. -/
def findParamName (s : String) : Option String :=
  (findParamNameAux s.toList).map String.mk

/-- Go `strings.Contains(s, string(c))` for a one-character needle. -/
def containsChar (s : String) (c : Char) : Bool :=
  s.toList.contains c

/-- The path-segment loop of `parseURITemplate`: extract the regex
capture of each segment, rejecting duplicates; a segment with a `{` or
`}` but no capture is malformed. -/
def processSegments (full : String) :
    List String → List String → Except String (List String)
  | [], acc => .ok acc
  | seg :: rest, acc =>
      match findParamName seg with
      | some name =>
          if name ∈ acc then
            .error ("duplicate path parameter: " ++ name ++
              " in uri-template: " ++ full)
          else processSegments full rest (acc ++ [name])
      | none =>
          if containsChar seg '{' || containsChar seg '}' then
            .error ("invalid path parameter format in segment: '" ++ seg ++
              "' of uri-template: " ++ full ++ ". Expected '{paramName}'")
          else processSegments full rest acc

/-- The query-pair loop of `parseURITemplate`: each `key=value` pair is
split at the first `=`; a duplicate key is rejected, the value must be
`{var}` (braces are then trimmed); a pair with no `=` is rejected
unless it is empty. -/
def processPairs (full : String) :
    List String → List (String × String) →
      Except String (List (String × String))
  | [], acc => .ok acc
  | pair :: rest, acc =>
      match (splitFirst '=' pair.toList).2 with
      | some valChars =>
          let key := String.mk (splitFirst '=' pair.toList).1
          if (lookupA acc key).isSome then
            .error ("duplicate query parameter: " ++ key ++
              " in uri-template: " ++ full)
          else if valChars.head? = some '{' ∧ valChars.getLast? = some '}' then
            processPairs full rest
              (acc ++ [(key, String.mk ((valChars.drop 1).dropLast))])
          else
            .error ("invalid query parameter value format: '" ++ pair ++
              "' in uri-template: " ++ full ++
              ". Expected format 'queryparam={value}'")
      | none =>
          if pair ≠ "" then
            .error ("invalid query parameter format: '" ++ pair ++
              "' in uri-template: " ++ full ++ ". Expected 'key=value'")
          else processPairs full rest acc

/-- The path part of a template: everything before the first `?`. -/
def pathPartOf (t : String) : List Char :=
  (splitFirst '?' t.toList).1

/-- The query part of a template: everything after the first `?`, empty
when there is none. -/
def queryPartOf (t : String) : List Char :=
  (splitFirst '?' t.toList).2.getD []

/-- The path segments of a template (split of its path part at `/`). -/
def segmentsOf (t : String) : List String :=
  (splitChar '/' (pathPartOf t)).map String.mk

/-- The query pairs of a template (split of a non-empty query part at
`&`). -/
def queryPairsOf (t : String) : List String :=
  if String.mk (queryPartOf t) = "" then []
  else (splitChar '&' (queryPartOf t)).map String.mk

/-- `parseURITemplate` (deployers/types/api.go:282-346): split at the
first `?`, extract path parameters from the `/`-separated segments and
query variables from the `&`-separated `key={var}` pairs. -/
def parseURITemplate (uriTemplate : String) : Except String URITemplateInfo :=
  match processSegments uriTemplate (segmentsOf uriTemplate) [] with
  | .error e => .error e
  | .ok params =>
      match (if String.mk (queryPartOf uriTemplate) = "" then
               Except.ok []
             else processPairs uriTemplate (queryPairsOf uriTemplate) []) with
      | .error e => .error e
      | .ok qps =>
          .ok { fullTemplate := uriTemplate,
                pathTemplate := String.mk (pathPartOf uriTemplate),
                pathParameters := params,
                queryParameters := qps }

theorem lookupA_append {α : Type} (l1 l2 : List (String × α)) (k : String) :
    lookupA (l1 ++ l2) k =
      match lookupA l1 k with
      | some v => some v
      | none => lookupA l2 k := by
  induction l1 with
  | nil => simp [lookupA]
  | cons p rest ih =>
      obtain ⟨k', v'⟩ := p
      by_cases h : k' = k
      · simp [lookupA, h]
      · simp [lookupA, h, ih]

theorem keysA_append {α : Type} (l1 l2 : List (String × α)) :
    keysA (l1 ++ l2) = keysA l1 ++ keysA l2 := by
  simp [keysA]

theorem lookupA_eq_none_iff {α : Type} (l : List (String × α)) (k : String) :
    lookupA l k = none ↔ k ∉ keysA l := by
  induction l with
  | nil => simp [lookupA, keysA]
  | cons p rest ih =>
      obtain ⟨k', v'⟩ := p
      by_cases h : k' = k
      · subst h
        simp [lookupA, keysA]
      · have h' : ¬ k = k' := fun hh => h hh.symm
        simp [lookupA, h, keysA_cons, ih, List.mem_cons, h']

theorem processSegments_ok (full : String) (segs : List String) :
    ∀ acc res : List String, processSegments full segs acc = .ok res →
      res = acc ++ segs.filterMap findParamName ∧
      (acc.Nodup → res.Nodup) ∧
      (∀ seg ∈ segs, (containsChar seg '{' || containsChar seg '}') = true →
        (findParamName seg).isSome) := by
  induction segs with
  | nil =>
      intro acc res h
      simp only [processSegments] at h
      cases h
      simp
  | cons seg rest ih =>
      intro acc res h
      simp only [processSegments] at h
      cases hf : findParamName seg with
      | some name =>
          simp only [hf] at h
          by_cases hmem : name ∈ acc
          · simp [hmem] at h
          · rw [if_neg hmem] at h
            obtain ⟨h1, h2, h3⟩ := ih (acc ++ [name]) res h
            refine ⟨?_, ?_, ?_⟩
            · rw [h1]
              simp [List.filterMap_cons, hf]
            · intro hnd
              apply h2
              simp [List.nodup_append, hnd, hmem]
            · intro s hs hb
              rcases List.mem_cons.mp hs with rfl | hs'
              · simp [hf]
              · exact h3 s hs' hb
      | none =>
          simp only [hf] at h
          by_cases hb : (containsChar seg '{' || containsChar seg '}') = true
          · simp [hb] at h
          · rw [if_neg hb] at h
            obtain ⟨h1, h2, h3⟩ := ih acc res h
            refine ⟨by simpa [List.filterMap_cons, hf] using h1, h2, ?_⟩
            intro s hs hbb
            rcases List.mem_cons.mp hs with rfl | hs'
            · exact absurd hbb hb
            · exact h3 s hs' hbb

theorem processPairs_ok (full : String) (ps : List String) :
    ∀ acc res : List (String × String), processPairs full ps acc = .ok res →
      ((keysA acc).Nodup → (keysA res).Nodup) ∧
      (∀ k, (lookupA acc k).isSome → lookupA res k = lookupA acc k) ∧
      (∀ pair ∈ ps, pair ≠ "" →
        ∃ valChars, (splitFirst '=' pair.toList).2 = some valChars ∧
          valChars.head? = some '{' ∧ valChars.getLast? = some '}' ∧
          lookupA res (String.mk (splitFirst '=' pair.toList).1) =
            some (String.mk ((valChars.drop 1).dropLast))) := by
  induction ps with
  | nil =>
      intro acc res h
      simp only [processPairs] at h
      cases h
      simp
  | cons pair rest ih =>
      intro acc res h
      simp only [processPairs] at h
      cases hsp : (splitFirst '=' pair.toList).2 with
      | some valChars =>
          simp only [hsp] at h
          by_cases hdup :
              (lookupA acc (String.mk (splitFirst '=' pair.toList).1)).isSome
          · rw [if_pos hdup] at h
            simp at h
          · rw [if_neg hdup] at h
            by_cases hfmt :
                valChars.head? = some '{' ∧ valChars.getLast? = some '}'
            · rw [if_pos hfmt] at h
              have hnone :
                  lookupA acc (String.mk (splitFirst '=' pair.toList).1) =
                    none := by
                cases hl : lookupA acc (String.mk
                    (splitFirst '=' pair.toList).1) with
                | none => rfl
                | some v => rw [hl] at hdup; simp at hdup
              obtain ⟨h1, h2, h3⟩ := ih _ res h
              have hfresh :
                  (String.mk (splitFirst '=' pair.toList).1) ∉ keysA acc :=
                (lookupA_eq_none_iff acc _).mp hnone
              have hlookacc' :
                  lookupA (acc ++ [((String.mk (splitFirst '=' pair.toList).1),
                    String.mk ((valChars.drop 1).dropLast))])
                    (String.mk (splitFirst '=' pair.toList).1) =
                  some (String.mk ((valChars.drop 1).dropLast)) := by
                rw [lookupA_append, hnone]
                simp [lookupA]
              refine ⟨?_, ?_, ?_⟩
              · intro hnd
                apply h1
                rw [keysA_append]
                refine List.nodup_append.mpr ⟨hnd, by simp [keysA], ?_⟩
                intro a ha hb
                simp only [keysA, List.map_cons, List.map_nil,
                  List.mem_singleton] at hb
                subst hb
                exact hfresh ha
              · intro k hk
                have hkacc :
                    lookupA (acc ++ [((String.mk
                      (splitFirst '=' pair.toList).1),
                      String.mk ((valChars.drop 1).dropLast))]) k =
                    lookupA acc k := by
                  rw [lookupA_append]
                  cases hl : lookupA acc k with
                  | none => rw [hl] at hk; simp at hk
                  | some v => simp
                rw [← hkacc]
                apply h2
                rw [hkacc]
                exact hk
              · intro p hp hpne
                rcases List.mem_cons.mp hp with rfl | hp'
                · refine ⟨valChars, hsp, hfmt.1, hfmt.2, ?_⟩
                  rw [h2 _ (by rw [hlookacc']; rfl), hlookacc']
                · exact h3 p hp' hpne
            · simp [hfmt] at h
      | none =>
          simp only [hsp] at h
          by_cases hne : pair ≠ ""
          · simp [hne] at h
          · rw [if_neg hne] at h
            obtain ⟨h1, h2, h3⟩ := ih acc res h
            refine ⟨h1, h2, ?_⟩
            intro p hp hpne
            rcases List.mem_cons.mp hp with rfl | hp'
            · exact absurd hpne hne
            · exact h3 p hp' hpne

/-- Claim C4 (amended): for every URI template, parsing extracts, for
each path segment, the capture of the leftmost `\{([^}]+)\}` match (so
the first `{name}` token of a segment; later tokens of the same segment
are ignored) as a path parameter, and the extracted names are pairwise
distinct; an error is returned on a duplicate extracted name and on a
path segment containing `{` or `}` without such a match; on success
every non-empty query pair has the shape `key={var}` and the query map
sends its key to the brace-trimmed variable, with pairwise distinct
keys (an empty query pair, e.g. after a trailing `&`, is skipped). -/
theorem parse_uri_template_spec :
    (∀ (t : String) (info : URITemplateInfo),
      parseURITemplate t = .ok info →
      info.fullTemplate = t ∧
      info.pathTemplate = String.mk (pathPartOf t) ∧
      info.pathParameters = (segmentsOf t).filterMap findParamName ∧
      info.pathParameters.Nodup ∧
      (∀ seg ∈ segmentsOf t,
        (containsChar seg '{' || containsChar seg '}') = true →
        (findParamName seg).isSome) ∧
      (keysA info.queryParameters).Nodup ∧
      (∀ pair ∈ queryPairsOf t, pair ≠ "" →
        ∃ valChars, (splitFirst '=' pair.toList).2 = some valChars ∧
          valChars.head? = some '{' ∧ valChars.getLast? = some '}' ∧
          lookupA info.queryParameters
              (String.mk (splitFirst '=' pair.toList).1) =
            some (String.mk ((valChars.drop 1).dropLast)))) ∧
    (∀ t : String, ¬ ((segmentsOf t).filterMap findParamName).Nodup →
      ∃ e, parseURITemplate t = .error e) ∧
    (∀ t : String,
      (∃ seg ∈ segmentsOf t,
        (containsChar seg '{' || containsChar seg '}') = true ∧
        findParamName seg = none) →
      ∃ e, parseURITemplate t = .error e) := by
  have hmain : ∀ (t : String) (info : URITemplateInfo),
      parseURITemplate t = .ok info →
      info.fullTemplate = t ∧
      info.pathTemplate = String.mk (pathPartOf t) ∧
      info.pathParameters = (segmentsOf t).filterMap findParamName ∧
      info.pathParameters.Nodup ∧
      (∀ seg ∈ segmentsOf t,
        (containsChar seg '{' || containsChar seg '}') = true →
        (findParamName seg).isSome) ∧
      (keysA info.queryParameters).Nodup ∧
      (∀ pair ∈ queryPairsOf t, pair ≠ "" →
        ∃ valChars, (splitFirst '=' pair.toList).2 = some valChars ∧
          valChars.head? = some '{' ∧ valChars.getLast? = some '}' ∧
          lookupA info.queryParameters
              (String.mk (splitFirst '=' pair.toList).1) =
            some (String.mk ((valChars.drop 1).dropLast))) := by
    intro t info h
    unfold parseURITemplate at h
    cases hseg : processSegments t (segmentsOf t) [] with
    | error e => rw [hseg] at h; simp at h
    | ok params =>
        rw [hseg] at h
        obtain ⟨hs1, hs2, hs3⟩ := processSegments_ok t (segmentsOf t) [] params hseg
        by_cases hq : String.mk (queryPartOf t) = ""
        · rw [if_pos hq] at h
          simp only at h
          cases h
          refine ⟨rfl, rfl, by simpa using hs1, ?_, hs3, ?_, ?_⟩
          · simpa using hs2 List.nodup_nil
          · simp [keysA]
          · intro pair hp
            simp [queryPairsOf, hq] at hp
        · rw [if_neg hq] at h
          cases hpr : processPairs t (queryPairsOf t) [] with
          | error e => rw [hpr] at h; simp at h
          | ok qps =>
              rw [hpr] at h
              simp only at h
              cases h
              obtain ⟨hp1, hp2, hp3⟩ :=
                processPairs_ok t (queryPairsOf t) [] qps hpr
              refine ⟨rfl, rfl, by simpa using hs1, ?_, hs3, ?_, hp3⟩
              · simpa using hs2 List.nodup_nil
              · apply hp1
                simp [keysA]
  refine ⟨hmain, ?_, ?_⟩
  · intro t hnd
    cases hp : parseURITemplate t with
    | error e => exact ⟨e, rfl⟩
    | ok info =>
        obtain ⟨_, _, h3, h4, _⟩ := hmain t info hp
        rw [h3] at h4
        exact absurd h4 hnd
  · intro t hex
    cases hp : parseURITemplate t with
    | error e => exact ⟨e, rfl⟩
    | ok info =>
        obtain ⟨_, _, _, _, h5, _⟩ := hmain t info hp
        obtain ⟨seg, hseg, hb, hnone⟩ := hex
        have := h5 seg hseg hb
        rw [hnone] at this
        simp at this

/-- Witness for C4: the template `/orders/{id}?status={s}` parses to
the expected info, whose path-parameter list is exactly the per-segment
captures and is duplicate-free. -/
theorem parse_uri_template_spec_witness :
    ({ fullTemplate := "/orders/{id}?status={s}",
       pathTemplate := "/orders/{id}",
       pathParameters := ["id"],
       queryParameters := [("status", "s")] } :
        URITemplateInfo).pathParameters.Nodup :=
  (parse_uri_template_spec.1 "/orders/{id}?status={s}"
    { fullTemplate := "/orders/{id}?status={s}",
      pathTemplate := "/orders/{id}",
      pathParameters := ["id"],
      queryParameters := [("status", "s")] } rfl).2.2.2.1

/-- Counterexample to C4 as stated: in `/x/{a}{b}` the token `{b}`
appears between `/` separators in the path part, yet parsing succeeds
with path parameters `["a"]` only — `b` is neither extracted nor
rejected. -/
theorem parse_uri_template_counterexample :
    parseURITemplate "/x/{a}{b}" =
      Except.ok
        { fullTemplate := "/x/{a}{b}", pathTemplate := "/x/{a}{b}",
          pathParameters := ["a"], queryParameters := [] } ∧
    ("b" : String) ≠ "" ∧
    (∀ c ∈ ("b" : String).toList, c ≠ '{' ∧ c ≠ '}') ∧
    ('{' :: ("b" : String).toList ++ ['}']) <:+: "/x/{a}{b}".toList ∧
    ("b" : String) ∉ (["a"] : List String) := by
  refine ⟨rfl, by decide, by decide, ?_, by decide⟩
  exact ⟨"/x/{a}".toList, [], by decide⟩

/-! ## Mediator dispatch in the XML deployers
(deployers/types/api.go decodeSequence — the flat form with its
skip-to-first-element pre-loop and nested `<sequence>` dispatch — and
deployers/types Sequence.unmarshal — the nested `<sequence>` form)

The streaming XML decoder is modelled by the list of start/end element
tokens that follow the opening inSequence/faultSequence tag; a
mediator's own `Unmarshal` consumes its element's subtree
(`DecodeElement`), modelled by skipping tokens to the matching end tag
(tracked by a depth counter in the walk state). -/

/-- Start/end element tokens of the streaming XML decoder. -/
inductive Tok where
  | start (n : String)
  | stop (n : String)
deriving Repr, DecidableEq

/-- The kind of mediator instantiated by a dispatch loop. -/
inductive MediatorKind where
  | log
  | respond
  | call
deriving Repr, DecidableEq

/-- The dispatch loop of the nested `<sequence>` decoder
(`Sequence.unmarshal`, part_007:41-73): only `<log>` and `<respond>`
are recognized; the loop stops at a closing `sequence` tag (walk state:
`none` = scanning, `some d` = consuming a recognized mediator element
at nesting depth `d`). -/
def decodeNestedAux : Option Nat → List Tok → List MediatorKind
  | some _, [] => []
  | some d, Tok.start _ :: rest => decodeNestedAux (some (d + 1)) rest
  | some 0, Tok.stop _ :: rest => decodeNestedAux none rest
  | some (d + 1), Tok.stop _ :: rest => decodeNestedAux (some d) rest
  | none, [] => []
  | none, Tok.start n :: rest =>
      if n = "log" then
        MediatorKind.log :: decodeNestedAux (some 0) rest
      else if n = "respond" then
        MediatorKind.respond :: decodeNestedAux (some 0) rest
      else decodeNestedAux none rest
  | none, Tok.stop n :: rest =>
      if n = "sequence" then [] else decodeNestedAux none rest

/-- The mediator dispatch of `Sequence.unmarshal`. -/
def decodeNested (toks : List Tok) : List MediatorKind :=
  decodeNestedAux none toks

/-- The `OuterLoop` of the flat form of `decodeSequence`
(api.go:243-275): only `<log>` and `<call>` are recognized; the loop
stops at the closing tag of the enclosing inSequence/faultSequence
element, and returns the mediators gathered so far when the token
stream ends (same walk state as the nested loop). -/
def decodeFlatLoop (seqType : String) :
    Option Nat → List Tok → List MediatorKind
  | some _, [] => []
  | some d, Tok.start _ :: rest => decodeFlatLoop seqType (some (d + 1)) rest
  | some 0, Tok.stop _ :: rest => decodeFlatLoop seqType none rest
  | some (d + 1), Tok.stop _ :: rest => decodeFlatLoop seqType (some d) rest
  | none, [] => []
  | none, Tok.start n :: rest =>
      if n = "log" then
        MediatorKind.log :: decodeFlatLoop seqType (some 0) rest
      else if n = "call" then
        MediatorKind.call :: decodeFlatLoop seqType (some 0) rest
      else decodeFlatLoop seqType none rest
  | none, Tok.stop n :: rest =>
      if n = seqType then [] else decodeFlatLoop seqType none rest

/-- `decodeSequence` (deployers/types/api.go:193-280): first skip
tokens until the first start element — end tags, including the
enclosing close tag itself, are passed over, so a stream that ends
before any start element is a decoder error; when the first element is
`<sequence>`, return the nested decoder's result; otherwise dispatch
that first element (`<log>`/`<call>` instantiate and consume their
subtree, anything else is ignored) and continue with the
`OuterLoop`. -/
def decodeSequence (seqType : String) :
    List Tok → Except String (List MediatorKind)
  | [] => Except.error "unexpected EOF"
  | Tok.stop _ :: rest => decodeSequence seqType rest
  | Tok.start n :: rest =>
      if n = "sequence" then Except.ok (decodeNestedAux none rest)
      else if n = "log" then
        Except.ok (MediatorKind.log :: decodeFlatLoop seqType (some 0) rest)
      else if n = "call" then
        Except.ok (MediatorKind.call :: decodeFlatLoop seqType (some 0) rest)
      else Except.ok (decodeFlatLoop seqType none rest)

/-- The token stream of a list of childless child elements. -/
def leafToks (names : List String) : List Tok :=
  (names.map (fun n => [Tok.start n, Tok.stop n])).flatten

/-- The dispatch table of the flat form (`decodeSequence`). -/
def flatMediatorFor (n : String) : Option MediatorKind :=
  if n = "log" then some MediatorKind.log
  else if n = "call" then some MediatorKind.call
  else none

/-- The dispatch table of the nested form (`Sequence.unmarshal`). -/
def nestedMediatorFor (n : String) : Option MediatorKind :=
  if n = "log" then some MediatorKind.log
  else if n = "respond" then some MediatorKind.respond
  else none

/-- Claim C5 (amended): decoding the children of an
inSequence/faultSequence first skips to the first child element; with
at least one child whose first element is not `<sequence>`, the flat
form instantiates `<log>` and `<call>` and skips `<respond>` and every
other element without error; a body with no child element at all is a
decoder error (the pre-loop reads past the enclosing close tag); when
the first child is a (childless) `<sequence>` element the nested
decoder's result is returned, dropping the remaining children; and
decoding the children of a `<sequence>` element instantiates `<log>`
and `<respond>` and skips `<call>` and every other element without
error. -/
theorem mediator_dispatch_tables :
    (∀ (seqType n0 : String) (names : List String),
      seqType ∉ n0 :: names → n0 ≠ "sequence" →
      decodeSequence seqType
          (leafToks (n0 :: names) ++ [Tok.stop seqType]) =
        Except.ok ((n0 :: names).filterMap flatMediatorFor)) ∧
    (∀ seqType : String,
      ∃ e, decodeSequence seqType [Tok.stop seqType] = Except.error e) ∧
    (∀ (seqType : String) (names : List String),
      decodeSequence seqType
          (leafToks ("sequence" :: names) ++ [Tok.stop seqType]) =
        Except.ok []) ∧
    (∀ names : List String, "sequence" ∉ names →
      decodeNested (leafToks names ++ [Tok.stop "sequence"]) =
        names.filterMap nestedMediatorFor) := by
  have hloop : ∀ (seqType : String) (names : List String),
      seqType ∉ names →
      decodeFlatLoop seqType none (leafToks names ++ [Tok.stop seqType]) =
        names.filterMap flatMediatorFor := by
    intro seqType names hnotin
    induction names with
    | nil => simp [leafToks, decodeFlatLoop]
    | cons n rest ih =>
        have hn : n ≠ seqType := by
          intro hh
          exact hnotin (by simp [hh])
        have hrest : seqType ∉ rest := by
          intro hh
          exact hnotin (by simp [hh])
        have ih' := ih hrest
        by_cases hlog : n = "log"
        · subst hlog
          simpa [leafToks, decodeFlatLoop, flatMediatorFor] using ih'
        · by_cases hcall : n = "call"
          · subst hcall
            simpa [leafToks, decodeFlatLoop, flatMediatorFor] using ih'
          · simpa [leafToks, decodeFlatLoop, flatMediatorFor,
              hlog, hcall, hn] using ih'
  refine ⟨?_, ?_, ?_, ?_⟩
  · intro seqType n0 names hnotin hns
    have hn0 : n0 ≠ seqType := by
      intro hh
      exact hnotin (by simp [hh])
    have hrest : seqType ∉ names := by
      intro hh
      exact hnotin (by simp [hh])
    have hl := hloop seqType names hrest
    by_cases hlog : n0 = "log"
    · subst hlog
      simpa [leafToks, decodeSequence, decodeFlatLoop, flatMediatorFor]
        using hl
    · by_cases hcall : n0 = "call"
      · subst hcall
        simpa [leafToks, decodeSequence, decodeFlatLoop, flatMediatorFor]
          using hl
      · simpa [leafToks, decodeSequence, decodeFlatLoop, flatMediatorFor,
          hns, hlog, hcall, hn0] using hl
  · intro seqType
    exact ⟨"unexpected EOF", rfl⟩
  · intro seqType names
    simp [leafToks, decodeSequence, decodeNestedAux]
  · intro names hnotin
    induction names with
    | nil => simp [decodeNested, leafToks, decodeNestedAux]
    | cons n rest ih =>
        have hn : n ≠ "sequence" := by
          intro hh
          exact hnotin (by simp [hh])
        have hrest : "sequence" ∉ rest := by
          intro hh
          exact hnotin (by simp [hh])
        have ih' := ih hrest
        by_cases hlog : n = "log"
        · subst hlog
          simpa [decodeNested, leafToks, decodeNestedAux, nestedMediatorFor]
            using ih'
        · by_cases hresp : n = "respond"
          · subst hresp
            simpa [decodeNested, leafToks, decodeNestedAux, nestedMediatorFor]
              using ih'
          · simpa [decodeNested, leafToks, decodeNestedAux, nestedMediatorFor,
              hlog, hresp, hn] using ih'

/-- Witness for C5: the child list `respond, log, call` yields `[log,
call]` in the flat form and `[log, respond]` in the nested form. -/
theorem mediator_dispatch_tables_witness :
    decodeSequence "inSequence"
        (leafToks ["respond", "log", "call"] ++ [Tok.stop "inSequence"]) =
      Except.ok (["respond", "log", "call"].filterMap flatMediatorFor) ∧
    decodeNested
        (leafToks ["respond", "log", "call"] ++ [Tok.stop "sequence"]) =
      ["respond", "log", "call"].filterMap nestedMediatorFor :=
  ⟨mediator_dispatch_tables.1 "inSequence" "respond" ["log", "call"]
      (by decide) (by decide),
   mediator_dispatch_tables.2.2.2 ["respond", "log", "call"] (by decide)⟩

/-- Counterexample to C5 as stated: a lone `<respond/>` child of an
inSequence (flat form) produces no mediator at all, and a lone
`<call/>` child of a `<sequence>` element produces no mediator. -/
theorem mediator_dispatch_counterexample :
    decodeSequence "inSequence"
        [Tok.start "respond", Tok.stop "respond", Tok.stop "inSequence"] =
      Except.ok [] ∧
    (Except.ok ([] : List MediatorKind) : Except String (List MediatorKind)) ≠
      Except.ok [MediatorKind.respond] ∧
    decodeNested [Tok.start "call", Tok.stop "call", Tok.stop "sequence"] =
      [] ∧
    ([] : List MediatorKind) ≠ [MediatorKind.call] := by
  refine ⟨rfl, by simp, rfl, by decide⟩

/-! ## Effective base path
(router RegisterAPI, service.go:76-101, and API.calculateBasePath) -/

/-- Go `len(s)` on the character model. -/
def strLen (s : String) : Nat := s.toList.length

/-- Go `s[len(s)-1] == '/'` / `strings.HasSuffix(s, "/")`. -/
def lastIsSlash (s : String) : Bool :=
  match s.toList.getLast? with
  | some c => c == '/'
  | none => false

/-- Go `strings.HasPrefix(s, "/")`. -/
def headIsSlash (s : String) : Bool :=
  match s.toList.head? with
  | some c => c == '/'
  | none => false

/-- Go `s[:len(s)-1]` on a non-empty string. -/
def dropLastStr (s : String) : String := String.mk s.toList.dropLast

/-- The shared trailing-slash removal of both base-path computations:
strip one trailing `/` when the string is longer than one character. -/
def stripTrailingSlash (s : String) : String :=
  if 1 < strLen s ∧ lastIsSlash s then dropLastStr s else s

/-- Go `strings.Replace(s, pat, rep, 1)` (non-empty pattern): replace
the leftmost occurrence only. -/
def replaceFirstAux (pat rep : List Char) : List Char → List Char
  | [] => []
  | c :: rest =>
      if pat.isPrefixOf (c :: rest) then rep ++ (c :: rest).drop pat.length
      else c :: replaceFirstAux pat rep rest

/-- String wrapper for the single replacement. -/
def replaceFirst (s pat rep : String) : String :=
  String.mk (replaceFirstAux pat.toList rep.toList s.toList)

/-- `RouterService.RegisterAPI` base-path computation
(service.go:76-101). -/
def registerAPIBasePath (ctxPath ver vtype : String) : String :=
  let basePath := stripTrailingSlash ctxPath
  if ver ≠ "" ∧ vtype ≠ "" then
    if vtype = "url" then basePath ++ "/" ++ ver
    else if vtype = "context" then replaceFirst basePath "{version}" ver
    else basePath
  else basePath

/-- `API.calculateBasePath` (part_010:69-102): additionally ensures a
leading slash and avoids a double slash when the stripped context is
`/` or empty. -/
def calculateBasePath (ctxPath ver vtype : String) : String :=
  let b1 := stripTrailingSlash ctxPath
  let b2 := if b1 ≠ "" ∧ ¬ headIsSlash b1 then "/" ++ b1 else b1
  if ver ≠ "" ∧ vtype ≠ "" then
    if vtype = "url" then
      if b2 = "/" then "/" ++ ver
      else if b2 = "" then "/" ++ ver
      else b2 ++ "/" ++ ver
    else if vtype = "context" then replaceFirst b2 "{version}" ver
    else b2
  else b2

theorem stripTrailingSlash_headIsSlash (s : String)
    (h : headIsSlash s = true) :
    headIsSlash (stripTrailingSlash s) = true := by
  unfold stripTrailingSlash
  by_cases hc : 1 < strLen s ∧ lastIsSlash s
  · rw [if_pos hc]
    obtain ⟨hlen, _⟩ := hc
    unfold strLen at hlen
    unfold headIsSlash at h ⊢
    match hl : s.toList with
    | [] => rw [hl] at hlen; simp at hlen
    | [a] => rw [hl] at hlen; simp at hlen
    | a :: b :: t =>
        rw [hl] at h
        simp only [List.head?] at h
        show (match (String.mk (s.toList.dropLast)).toList.head? with
          | some c => c == '/'
          | none => false) = true
        rw [hl]
        simp [List.dropLast, h]
  · rw [if_neg hc]
    exact h

theorem headIsSlash_ne_empty (s : String) (h : headIsSlash s = true) :
    s ≠ "" := by
  intro he
  subst he
  simp [headIsSlash] at h

/-- Claim C6 (amended): both base-path computations first remove one
trailing slash from the context path (when longer than `/`); with
`version_type=url` (and stripped context not `/`) the base path is the
stripped context plus `/` plus the version; with `version_type=context`
the first occurrence of the literal `{version}` in the stripped context
is replaced by the version; without a version the base path is the
stripped context path — not the context path verbatim. -/
theorem base_path_computation (ctxPath ver : String)
    (h : headIsSlash ctxPath = true) :
    (∀ vtype : String,
      registerAPIBasePath ctxPath "" vtype = stripTrailingSlash ctxPath ∧
      calculateBasePath ctxPath "" vtype = stripTrailingSlash ctxPath) ∧
    (ver ≠ "" →
      registerAPIBasePath ctxPath ver "context" =
        replaceFirst (stripTrailingSlash ctxPath) "{version}" ver ∧
      calculateBasePath ctxPath ver "context" =
        replaceFirst (stripTrailingSlash ctxPath) "{version}" ver) ∧
    (ver ≠ "" → stripTrailingSlash ctxPath ≠ "/" →
      registerAPIBasePath ctxPath ver "url" =
        stripTrailingSlash ctxPath ++ "/" ++ ver ∧
      calculateBasePath ctxPath ver "url" =
        stripTrailingSlash ctxPath ++ "/" ++ ver) := by
  have hb1 : headIsSlash (stripTrailingSlash ctxPath) = true :=
    stripTrailingSlash_headIsSlash ctxPath h
  have hb2 : (if stripTrailingSlash ctxPath ≠ "" ∧
      ¬ headIsSlash (stripTrailingSlash ctxPath) then
        "/" ++ stripTrailingSlash ctxPath
      else stripTrailingSlash ctxPath) = stripTrailingSlash ctxPath := by
    rw [if_neg]
    intro hcon
    exact hcon.2 hb1
  have hne : stripTrailingSlash ctxPath ≠ "" :=
    headIsSlash_ne_empty _ hb1
  refine ⟨?_, ?_, ?_⟩
  · intro vtype
    constructor
    · simp [registerAPIBasePath]
    · simp only [calculateBasePath]
      rw [hb2]
      simp
  · intro hv
    constructor
    · simp [registerAPIBasePath, hv]
    · simp only [calculateBasePath]
      rw [hb2]
      simp [hv]
  · intro hv hslash
    constructor
    · simp [registerAPIBasePath, hv]
    · simp only [calculateBasePath]
      rw [hb2]
      simp [hv, hslash, hne]

/-- Witness for C6: context `/api/` with version `v1` of type `url`
yields `/api/v1` under both computations. -/
theorem base_path_computation_witness :
    registerAPIBasePath "/api/" "v1" "url" =
      stripTrailingSlash "/api/" ++ "/" ++ "v1" ∧
    calculateBasePath "/api/" "v1" "url" =
      stripTrailingSlash "/api/" ++ "/" ++ "v1" :=
  (base_path_computation "/api/" "v1" (by decide)).2.2 (by decide) (by decide)

/-- Counterexample to C6 as stated: for an API without a version whose
context is `/a/`, the base path is the stripped `/a`, not the context
path `/a/` itself. -/
theorem base_path_counterexample :
    registerAPIBasePath "/a/" "" "" = "/a" ∧
    calculateBasePath "/a/" "" "" = "/a" ∧
    ("/a" : String) ≠ "/a/" := by
  refine ⟨rfl, rfl, by decide⟩

/-! ## File-inbound advisory lock protocol (tryLockFile) -/

/-- Outcome of the exclusive-create of the lock file
(`OpenFile(..., O_CREATE|O_EXCL|O_WRONLY, 0644)`). -/
inductive OpenResult where
  | created
  | alreadyExists
  | otherError
deriving Repr, DecidableEq

/-- The filesystem as seen by successive lock attempts: per attempt,
the open outcome, the lock file's age `now − mtime` in milliseconds
(`none` = stat error), and whether remove / write succeed. -/
structure LockEnv where
  openRes : Nat → OpenResult
  statAge : Nat → Option Int
  removeOk : Nat → Bool
  writeOk : Nat → Bool

/-- The result of a lock attempt: `(true, nil)`, `(false, nil)`, or
`(false, error)` in the Go source. -/
inductive LockOutcome where
  | locked
  | notLocked
  | ioError
deriving Repr, DecidableEq

/-- The lock timeout: the configured
`transport.vfs.AutoLockReleaseInterval` when present and parseable,
otherwise the default 20000 ms. -/
def lockTimeoutOf (param : Option String) : Int :=
  match param with
  | none => 20000
  | some s =>
      match s.toInt? with
      | some n => n
      | none => 20000

/-- `tryLockFile` (mocks_test.go:597-644): exclusively create the lock
file and write owner info; when it already exists, stat it, reclaim it
(delete and retry) only when the timeout is not −1 and the age exceeds
the timeout; otherwise report not-locked; any other filesystem failure
is an error.  The recursion is fuelled; `none` means the fuel ran out
before the protocol returned. -/
def tryLockFile (env : LockEnv) (timeout : Int) :
    Nat → Nat → Option LockOutcome
  | 0, _ => none
  | fuel + 1, attempt =>
      match env.openRes attempt with
      | OpenResult.created =>
          if env.writeOk attempt then some LockOutcome.locked
          else some LockOutcome.ioError
      | OpenResult.alreadyExists =>
          match env.statAge attempt with
          | none => some LockOutcome.ioError
          | some age =>
              if timeout ≠ -1 ∧ age > timeout then
                if env.removeOk attempt then
                  tryLockFile env timeout fuel (attempt + 1)
                else some LockOutcome.ioError
              else some LockOutcome.notLocked
      | OpenResult.otherError => some LockOutcome.ioError

/-- Claim C7: locking creates the lock file and returns locked after
writing owner info; on already-exists it stats the lock, reclaims
(delete and retry) only when the interval (default 20000 ms) is not −1
and the age exceeds it, and otherwise returns not-locked without
error; with interval −1 a pre-existing lock is never reclaimed; any
other filesystem error is an error result. -/
theorem try_lock_file_protocol :
    lockTimeoutOf none = 20000 ∧
    (∀ (env : LockEnv) (timeout : Int) (fuel attempt : Nat),
      (env.openRes attempt = OpenResult.created →
        env.writeOk attempt = true →
        tryLockFile env timeout (fuel + 1) attempt =
          some LockOutcome.locked) ∧
      (env.openRes attempt = OpenResult.created →
        env.writeOk attempt = false →
        tryLockFile env timeout (fuel + 1) attempt =
          some LockOutcome.ioError) ∧
      (∀ age : Int, env.openRes attempt = OpenResult.alreadyExists →
        env.statAge attempt = some age →
        (timeout = -1 ∨ ¬ age > timeout) →
        tryLockFile env timeout (fuel + 1) attempt =
          some LockOutcome.notLocked) ∧
      (∀ age : Int, env.openRes attempt = OpenResult.alreadyExists →
        env.statAge attempt = some age →
        timeout ≠ -1 → age > timeout → env.removeOk attempt = true →
        tryLockFile env timeout (fuel + 1) attempt =
          tryLockFile env timeout fuel (attempt + 1)) ∧
      (∀ age : Int, env.openRes attempt = OpenResult.alreadyExists →
        env.statAge attempt = some age →
        timeout ≠ -1 → age > timeout → env.removeOk attempt = false →
        tryLockFile env timeout (fuel + 1) attempt =
          some LockOutcome.ioError) ∧
      (env.openRes attempt = OpenResult.alreadyExists →
        env.statAge attempt = none →
        tryLockFile env timeout (fuel + 1) attempt =
          some LockOutcome.ioError) ∧
      (env.openRes attempt = OpenResult.otherError →
        tryLockFile env timeout (fuel + 1) attempt =
          some LockOutcome.ioError)) := by
  refine ⟨rfl, ?_⟩
  intro env timeout fuel attempt
  refine ⟨?_, ?_, ?_, ?_, ?_, ?_, ?_⟩
  · intro ho hw
    simp [tryLockFile, ho, hw]
  · intro ho hw
    simp [tryLockFile, ho, hw]
  · intro age ho hs hc
    have hcon : ¬ (timeout ≠ -1 ∧ age > timeout) := by
      rcases hc with hc | hc
      · intro hx
        exact hx.1 hc
      · intro hx
        exact hc hx.2
    simp [tryLockFile, ho, hs, hcon]
  · intro age ho hs ht ha hr
    simp [tryLockFile, ho, hs, ht, ha, hr]
  · intro age ho hs ht ha hr
    simp [tryLockFile, ho, hs, ht, ha, hr]
  · intro ho hs
    simp [tryLockFile, ho, hs]
  · intro ho
    simp [tryLockFile, ho]

/-- Witness for C7: with a fresh lock of age 1000 ms and the default
20000 ms interval, a pre-existing lock yields not-locked. -/
theorem try_lock_file_protocol_witness :
    tryLockFile
        { openRes := fun _ => OpenResult.alreadyExists,
          statAge := fun _ => some 1000,
          removeOk := fun _ => true,
          writeOk := fun _ => true }
        (lockTimeoutOf none) 1 0 = some LockOutcome.notLocked :=
  (try_lock_file_protocol.2
      { openRes := fun _ => OpenResult.alreadyExists,
        statAge := fun _ => some 1000,
        removeOk := fun _ => true,
        writeOk := fun _ => true }
      (lockTimeoutOf none) 0 0).2.2.1 1000 rfl rfl (Or.inr (by decide))

/-! ## Configuration registry (artifacts/artifact.go) and the mediation
engine port (adapters/mediation) -/

/-- `artifacts.API` as registered in the registry. -/
structure API where
  context : String
  name : String
  version : String
  versionType : String
  resources : List Resource

/-- `artifacts.Endpoint`. -/
structure Endpoint where
  name : String
  url : String
  method : String
deriving Repr, DecidableEq

/-- A named sequence artifact as stored in the registry. -/
structure NamedSequence where
  name : String
  mediatorList : List Mediator

/-- `artifacts.Inbound`. -/
structure Inbound where
  name : String
  protocol : String
  sequence : String
  parameters : List (String × String)
deriving Repr, DecidableEq

/-- `artifacts.ConfigContext`: the four name-indexed artifact maps. -/
structure ConfigContext where
  apiMap : List (String × API)
  endpointMap : List (String × Endpoint)
  sequenceMap : List (String × NamedSequence)
  inboundMap : List (String × Inbound)

/-- `ConfigContext.AddAPI`: plain Go map assignment keyed by name. -/
def ConfigContext.addAPI (c : ConfigContext) (api : API) : ConfigContext :=
  { c with apiMap := insertA c.apiMap api.name api }

/-- `ConfigContext.AddEndpoint`. -/
def ConfigContext.addEndpoint (c : ConfigContext) (ep : Endpoint) :
    ConfigContext :=
  { c with endpointMap := insertA c.endpointMap ep.name ep }

/-- `ConfigContext.AddSequence`. -/
def ConfigContext.addSequence (c : ConfigContext) (s : NamedSequence) :
    ConfigContext :=
  { c with sequenceMap := insertA c.sequenceMap s.name s }

/-- `ConfigContext.AddInbound`. -/
def ConfigContext.addInbound (c : ConfigContext) (i : Inbound) :
    ConfigContext :=
  { c with inboundMap := insertA c.inboundMap i.name i }

/-- Claim C8 (amended): registering an artifact under a name already
present in the registry of that kind replaces the existing entry (last
registration wins) rather than being refused; bindings under other
names are untouched and each kind keeps at most one entry per name. -/
theorem registry_registration (c : ConfigContext) (api : API)
    (ep : Endpoint) (s : NamedSequence) (i : Inbound) :
    (lookupA (c.addAPI api).apiMap api.name = some api ∧
      (∀ n, n ≠ api.name →
        lookupA (c.addAPI api).apiMap n = lookupA c.apiMap n) ∧
      ((keysA c.apiMap).Nodup → (keysA (c.addAPI api).apiMap).Nodup)) ∧
    (lookupA (c.addEndpoint ep).endpointMap ep.name = some ep ∧
      (∀ n, n ≠ ep.name →
        lookupA (c.addEndpoint ep).endpointMap n =
          lookupA c.endpointMap n) ∧
      ((keysA c.endpointMap).Nodup →
        (keysA (c.addEndpoint ep).endpointMap).Nodup)) ∧
    (lookupA (c.addSequence s).sequenceMap s.name = some s ∧
      (∀ n, n ≠ s.name →
        lookupA (c.addSequence s).sequenceMap n =
          lookupA c.sequenceMap n) ∧
      ((keysA c.sequenceMap).Nodup →
        (keysA (c.addSequence s).sequenceMap).Nodup)) ∧
    (lookupA (c.addInbound i).inboundMap i.name = some i ∧
      (∀ n, n ≠ i.name →
        lookupA (c.addInbound i).inboundMap n = lookupA c.inboundMap n) ∧
      ((keysA c.inboundMap).Nodup →
        (keysA (c.addInbound i).inboundMap).Nodup)) := by
  refine ⟨⟨?_, ?_, ?_⟩, ⟨?_, ?_, ?_⟩, ⟨?_, ?_, ?_⟩, ⟨?_, ?_, ?_⟩⟩
  · exact lookupA_insertA_self c.apiMap api.name api
  · intro n hn
    exact lookupA_insertA_other c.apiMap api.name n api hn
  · exact nodup_keysA_insertA c.apiMap api.name api
  · exact lookupA_insertA_self c.endpointMap ep.name ep
  · intro n hn
    exact lookupA_insertA_other c.endpointMap ep.name n ep hn
  · exact nodup_keysA_insertA c.endpointMap ep.name ep
  · exact lookupA_insertA_self c.sequenceMap s.name s
  · intro n hn
    exact lookupA_insertA_other c.sequenceMap s.name n s hn
  · exact nodup_keysA_insertA c.sequenceMap s.name s
  · exact lookupA_insertA_self c.inboundMap i.name i
  · intro n hn
    exact lookupA_insertA_other c.inboundMap i.name n i hn
  · exact nodup_keysA_insertA c.inboundMap i.name i

/-- An empty registry. -/
def emptyConfigContext : ConfigContext :=
  { apiMap := [], endpointMap := [], sequenceMap := [], inboundMap := [] }

/-- Witness for C8: after registering an API named `x` over a registry
already holding an API named `y`, the binding of `y` is unchanged. -/
theorem registry_registration_witness :
    lookupA
      ((emptyConfigContext.addAPI
          { context := "/y", name := "y", version := "",
            versionType := "", resources := [] }).addAPI
        { context := "/x", name := "x", version := "",
          versionType := "", resources := [] }).apiMap "y" =
      lookupA (emptyConfigContext.addAPI
        { context := "/y", name := "y", version := "",
          versionType := "", resources := [] }).apiMap "y" :=
  ((registry_registration
      (emptyConfigContext.addAPI
        { context := "/y", name := "y", version := "",
          versionType := "", resources := [] })
      { context := "/x", name := "x", version := "",
        versionType := "", resources := [] }
      { name := "", url := "", method := "" }
      { name := "", mediatorList := [] }
      { name := "", protocol := "", sequence := "",
        parameters := [] }).1.2.1 "y" (by decide))

/-- Counterexample to C8 as stated: registering a second API under the
already-present name `x` does not leave the existing entry unchanged —
the registry afterwards holds the new API (context `/b`), not the old
one (context `/a`). -/
theorem registry_overwrite_counterexample :
    (lookupA
        ((emptyConfigContext.addAPI
            { context := "/a", name := "x", version := "",
              versionType := "", resources := [] }).addAPI
          { context := "/b", name := "x", version := "",
            versionType := "", resources := [] }).apiMap "x").map
        API.context = some "/b" ∧
    (lookupA (emptyConfigContext.addAPI
        { context := "/a", name := "x", version := "",
          versionType := "", resources := [] }).apiMap "x").map
        API.context = some "/a" ∧
    (some "/b" : Option String) ≠ some "/a" := by
  refine ⟨rfl, rfl, by decide⟩

/-! ## CORS origin matching (artifacts CORS config) -/

/-- `artifacts.CORSConfig`. -/
structure CORSConfig where
  enabled : Bool
  allowOrigins : List String
  allowMethods : List String
  allowHeaders : List String
  exposeHeaders : List String
  allowCredentials : Bool
  maxAge : Int
deriving Repr, DecidableEq

/-- `artifacts.DefaultCORSConfig`. -/
def defaultCORSConfig : CORSConfig :=
  { enabled := false,
    allowOrigins := ["*"],
    allowMethods := ["GET", "POST", "PUT", "DELETE", "OPTIONS", "PATCH"],
    allowHeaders := ["Origin", "Content-Type", "Accept", "Authorization"],
    exposeHeaders := [],
    allowCredentials := false,
    maxAge := 86400 }

/-- Go `strings.HasSuffix`. -/
def goHasSuf (s suf : String) : Bool :=
  suf.toList.isSuffixOf s.toList

/-- Go `strings.HasPrefix`. -/
def goHasPre (s pre : String) : Bool :=
  pre.toList.isPrefixOf s.toList

/-- Go `s[n:]` (character model). -/
def strDropChars (s : String) (n : Nat) : String :=
  String.mk (s.toList.drop n)

/-- `CORSConfig.IsOriginAllowed` (part_011:216-238): disabled means
rejected; `*` and exact entries match; an entry starting `*.` matches
any origin whose host ends in the entry with its leading `*.` removed
(the code compares against `allowed[2:]`, dropping the dot as well). -/
def CORSConfig.isOriginAllowed (c : CORSConfig) (origin : String) : Bool :=
  if !c.enabled then false
  else
    c.allowOrigins.any fun allowed =>
      allowed == "*" || allowed == origin ||
        (goHasPre allowed "*." && goHasSuf origin (strDropChars allowed 2))

/-- Claim C9, evaluated at the failing input: with the allow list
`["*.example.com"]` and CORS enabled, the origin `evilexample.com` —
which ends in `example.com` but not in `.example.com` — is accepted by
the code, contradicting the spec's subdomain-wildcard rule. -/
theorem cors_wildcard_suffix_eval :
    CORSConfig.isOriginAllowed
        { enabled := true, allowOrigins := ["*.example.com"],
          allowMethods := [], allowHeaders := [], exposeHeaders := [],
          allowCredentials := false, maxAge := 86400 }
        "evilexample.com" = true ∧
    goHasSuf "evilexample.com" ".example.com" = false ∧
    goHasSuf "evilexample.com" "example.com" = true := by
  refine ⟨by decide, by decide, by decide⟩

/-- The mediation engine's spawned worker behaviour
(`MediationEngine.MediateInboundMessage`, part_000:52-74). -/
inductive WorkerOutcome where
  | stoppedByCancel
  | sequenceNotFound
  | executed (result : Bool) (finalCtx : MsgContext)

/-- `MediateInboundMessage`: spawn the mediation worker (cancellation
check, registry lookup, sequence execution) and return `nil`
unconditionally — the returned error never reflects the worker's
fate. -/
def mediateInboundMessage (cancelled : Bool) (cfg : ConfigContext)
    (seqName : String) (msg : MsgContext) :
    Option String × WorkerOutcome :=
  (none,
    if cancelled then WorkerOutcome.stoppedByCancel
    else
      match lookupA cfg.sequenceMap seqName with
      | none => WorkerOutcome.sequenceNotFound
      | some seq =>
          match executeMediators seq.mediatorList msg with
          | (b, cf) => WorkerOutcome.executed b cf)

/-- The post-mediation branch of the file inbound's per-file worker
(`processFile`, file_inbound.go:246-263): the failure action runs only
when the mediator port returned an error. -/
inductive FileActionBranch where
  | afterProcess
  | afterFailure
deriving Repr, DecidableEq

/-- The branch `processFile` takes after dispatching to the mediator
port. -/
def processFileDispatch (mediateErr : Option String) : FileActionBranch :=
  match mediateErr with
  | some _ => FileActionBranch.afterFailure
  | none => FileActionBranch.afterProcess

/-- Claim C10: the mediator port returns `nil` for every invocation —
including a cancelled context, a sequence name missing from the
registry, and a sequence that later fails — so the file inbound's
per-file worker always takes the after-process branch after a
successful read. -/
theorem mediate_inbound_always_ok (cancelled : Bool) (cfg : ConfigContext)
    (seqName : String) (msg : MsgContext) :
    (mediateInboundMessage cancelled cfg seqName msg).1 = none ∧
    processFileDispatch
        (mediateInboundMessage cancelled cfg seqName msg).1 =
      FileActionBranch.afterProcess :=
  ⟨rfl, rfl⟩
